import Mathlib

/-!
Verification of the slide-expansion core of `slidemachine/slidemachine.py`.

The embedding follows the source file closely:

* A line of markdown is a `String`.
* `processor.process(line)` returns either a plain line or a tuple of lines
  (`PResult`).  The check in `Slide.apply` is `type(new_line) is tuple`.
* A `Slide` object's attributes are `_slide_lines`, `_sub_slides` and
  `_override_transition`, set in `__init__`; the `markdown` property reads an
  attribute `_original_slide_lines` that no method ever assigns, which we keep
  as an `Option` field that stays `none`.
* `Slide.apply` is translated loop by loop: the inner scan over the lines of
  one sub-slide (`processLines`), the recombination of an expanded line
  (`buildSubSlides`), and the outer loop over sub-slides
  (`processSubSlides`).  The `SlideMachineError` raised on a second expanded
  line in the same sub-slide becomes the `Except`-error of the scan; its
  message (`multipleExpansionMsg`) is assembled exactly as in lines 66-70 of
  the source.
* `SlideMachine._read_md_file`'s splitting loop becomes `readSlides`.
* The `html` property becomes `Slide.html`, parameterised by the external
  markdown renderer (`mistune.Markdown()` in the source); Python's
  `str.rstrip()` becomes `pyRstrip`.
-/

/-- Result of `processor.process(line)`: either a single line (a Python `str`)
or a tuple of lines.  `Slide.apply` tests `type(new_line) is tuple`. -/
inductive PResult where
  | single (line : String)
  | expanded (lines : List String)
deriving DecidableEq, Repr

/-- `type(new_line) is tuple` — the expansion-detection test of line 63. -/
def PResult.isExpanded : PResult → Bool
  | .single _ => false
  | .expanded _ => true

/-- A processor instance: its `str()` (used in the error message of line 66)
and its `process` method. -/
structure Processor where
  name : String
  process : String → PResult

/-- The attributes of a `Slide` object.  `original_slide_lines` models the
attribute `_original_slide_lines` read by the `markdown` property (line 104):
no method of the class ever assigns it, so it is `none` on every object the
constructor produces. -/
structure Slide where
  slide_lines : List String
  original_slide_lines : Option (List String)
  sub_slides : List (List String)
  override_transition : Bool
deriving DecidableEq, Repr

/-- `Slide.__init__` (lines 26-36): deep-copy the given lines into
`_slide_lines`, seed `_sub_slides` with one copy, clear the transition flag.
(Deep copies are identities on immutable values in the pure model.) -/
def Slide.init (slideLines : List String) : Slide :=
  { slide_lines := slideLines
    original_slide_lines := none
    sub_slides := [slideLines]
    override_transition := false }

/-- The middle, constant part of the `SlideMachineError` message built at
lines 66-69 (note: the source concatenates `"Error in {}."` directly with
the next sentence, with no space after the period). -/
def multipleExpansionText : String :=
  "A slide cannot contain more than one tag of the same type that expand into multiple slides.\n\nOffending slide:\n\n"

/-- The full `SlideMachineError` message of lines 66-70: processor identity,
fixed text, then the join of the slide's original `_slide_lines`. -/
def multipleExpansionMsg (procName : String) (origLines : List String) : String :=
  "Error in " ++ procName ++ "." ++ multipleExpansionText ++ String.join origLines

/-- The inner loop of `Slide.apply` (lines 48-75): scan the lines of one
sub-slide in order.  `i` is the loop index, `exp` the current value of
`expanded_line` (`none` for Python's `-1`).  A processed line is appended to
the result list; when a tuple shows up a second time the loop raises
(`Except.error`), otherwise the tuple's index is recorded.  Returns the final
`expanded_line` and the processed lines. -/
def processLines (p : String → PResult) :
    List String → Nat → Option Nat → Except Unit (Option Nat × List PResult)
  | [], _, exp => .ok (exp, [])
  | l :: rest, i, exp =>
    match p l with
    | .single y =>
      match processLines p rest (i + 1) exp with
      | .error e => .error e
      | .ok (e, ys) => .ok (e, .single y :: ys)
    | .expanded vs =>
      match exp with
      | some _ => .error ()
      | none =>
        match processLines p rest (i + 1) (some i) with
        | .error e => .error e
        | .ok (e, ys) => .ok (e, .expanded vs :: ys)

/-- A processed line as stored into the rebuilt sub-slides.  In every state
`Slide.apply` reaches, the entries taken from `first_half`/`second_half` are
plain lines; the `expanded` branch is unreachable there (a tuple before or
after `expanded_line` would have moved `expanded_line` or raised). -/
def PResult.asLine : PResult → String
  | .single y => y
  | .expanded vs => String.join vs

/-- Recombination (lines 77-94): if a line expanded, split the processed
lines around it and build one new sub-slide per element of the tuple;
otherwise the processed lines form a single new sub-slide.  When
`new_lines[expanded_line]` is not a tuple (unreachable: `exp` is set only at
a tuple) Python would iterate the characters of the string, which the
`single` branch mirrors. -/
def buildSubSlides (exp : Option Nat) (newLines : List PResult) : List (List String) :=
  match exp with
  | none => [newLines.map PResult.asLine]
  | some k =>
    let firstHalf := (newLines.take k).map PResult.asLine
    let secondHalf := (newLines.drop (k + 1)).map PResult.asLine
    match newLines[k]? with
    | some (.expanded vs) => vs.map (fun t => firstHalf ++ t :: secondHalf)
    | some (.single y) => y.toList.map (fun c => firstHalf ++ String.singleton c :: secondHalf)
    | none => []

/-- The outer loop of `Slide.apply` (lines 45-94): process each sub-slide in
order, concatenating the rebuilt sub-slides, and record whether any tuple was
seen (`processor_expanded_slide`).  An error in any sub-slide aborts the
whole call. -/
def processSubSlides (p : String → PResult) :
    List (List String) → Except Unit (List (List String) × Bool)
  | [] => .ok ([], false)
  | sub :: rest =>
    match processLines p sub 0 none with
    | .error e => .error e
    | .ok (exp, ys) =>
      match processSubSlides p rest with
      | .error e => .error e
      | .ok (restOut, restFlag) =>
        .ok (buildSubSlides exp ys ++ restOut, exp.isSome || restFlag)

/-- `Slide.apply` (lines 38-100).  On success the new sub-slide list replaces
the old one (line 97) and the transition flag is set when any line expanded
(lines 99-100).  The `SlideMachineError` of line 72 is raised inside the
loop, before either attribute assignment, so the erroring call leaves the
object exactly as it was; the pair returned here is (object state after the
call, raised error if any). -/
def Slide.apply (s : Slide) (proc : Processor) : Slide × Option String :=
  match processSubSlides proc.process s.sub_slides with
  | .error _ => (s, some (multipleExpansionMsg proc.name s.slide_lines))
  | .ok (nss, flag) =>
    ({ s with sub_slides := nss
              override_transition := if flag then true else s.override_transition },
     none)

/-- The `markdown` property (lines 102-104): `"".join(self._original_slide_lines)`.
`_original_slide_lines` is never assigned anywhere in the class (the
constructor stores `_slide_lines`), so the attribute lookup raises
`AttributeError` on every `Slide` the program can build. -/
def Slide.markdown (s : Slide) : Except String String :=
  match s.original_slide_lines with
  | some ls => .ok (String.join ls)
  | none => .error "AttributeError: _original_slide_lines"

/-- Python's whitespace test for `str.rstrip()` (ASCII range). -/
def pyIsSpace (c : Char) : Bool :=
  c = ' ' || c = '\t' || c = '\n' || c = '\r' || c = '\x0b' || c = '\x0c'

/-- `str.rstrip()`: drop trailing whitespace characters. -/
def pyRstrip (s : String) : String :=
  ⟨(s.data.reverse.dropWhile pyIsSpace).reverse⟩

/-- The opening `<section>` tag chosen at lines 121-124. -/
def sectionStart (overrideTransition : Bool) : String :=
  if overrideTransition then "<section data-transition=\"none\">\n" else "<section>\n"

/-- Python's `str.split("\n")`: cut the character sequence at each newline
(the separator is a single character, so this is exactly `List.splitOn`). -/
def pySplitNl (s : String) : List String :=
  (s.data.splitOn '\n').map String.mk

/-- Lines 126-130: render the joined sub-slide lines through the external
markdown renderer, split the result on newlines, indent every piece by two
spaces re-adding the newline, and strip trailing whitespace. -/
def renderMiddle (md : String → String) (sub : List String) : String :=
  pyRstrip (String.join ((pySplitNl (md (String.join sub))).map
    (fun m => "  " ++ m ++ "\n")))

/-- The `html` property (lines 107-136), with the external
`mistune.Markdown()` renderer passed in as `md`. -/
def Slide.html (md : String → String) (s : Slide) : String :=
  String.join (s.sub_slides.map (fun sub =>
    sectionStart s.override_transition ++ renderMiddle md sub ++ "\n</section>\n\n"))

/-- The slide-splitting loop of `SlideMachine._read_md_file` (lines 244-253):
each line matching the slide-break pattern flushes the accumulated content as
a `Slide` and is itself discarded; a final `Slide` is appended after the
loop.  `isBreak` is `slide_break.search(line)` (the pattern is the configured
delimiter, `">>>"` by default). -/
def readSlides (isBreak : String → Bool) :
    List String → List String → List Slide
  | [], acc => [Slide.init acc]
  | l :: rest, acc =>
    if isBreak l then Slide.init acc :: readSlides isBreak rest []
    else readSlides isBreak rest (acc ++ [l])

/-! ### The render format as the specification words it

`specSectionBlock` and `htmlSpecRender` restate the `html` property the way
the spec describes it — one `<section>` element per sub-slide whose body is
the markdown-rendered text with every line prefixed by two spaces and
trailing whitespace trimmed, the `data-transition="none"` attribute present
exactly when the override flag is set, and the wrapped blocks joined with a
blank line between consecutive blocks.  The refinement theorem for C7 proves
the source's `Slide.html` equal to this rendering. -/

/-- Join a list of strings, placing `sep` between consecutive entries. -/
def joinSep (sep : String) : List String → String
  | [] => ""
  | [q] => q
  | q :: q2 :: rest => q ++ sep ++ joinSep sep (q2 :: rest)

/-- One sub-slide's wrapped block, as the spec describes it: an opening tag
carrying the no-transition attribute exactly when the flag is set, the
rendered body re-indented by two spaces per line and right-trimmed, and the
closing tag. -/
def specSectionBlock (md : String → String) (flag : Bool) (sub : List String) : String :=
  (if flag then "<section data-transition=\"none\">" else "<section>") ++ "\n" ++
    pyRstrip (joinSep "\n" ((pySplitNl (md (String.join sub))).map (fun m => "  " ++ m))) ++
    "\n</section>"

/-- The whole slide as the spec describes it: the wrapped blocks in sub-slide
order, a blank line separating consecutive blocks (each block ends with the
separator, so the output also ends with one). -/
def htmlSpecRender (md : String → String) (s : Slide) : String :=
  if s.sub_slides.isEmpty then ""
  else joinSep "\n\n" (s.sub_slides.map (specSectionBlock md s.override_transition)) ++ "\n\n"

/-! ### Behaviour of the line scan (`processLines`) -/

/-- A scan over lines the processor maps to single results leaves
`expanded_line` untouched and records exactly the processed lines. -/
theorem processLines_all_single (p : String → PResult) (f : String → String)
    (ls : List String) :
    ∀ (i : Nat) (exp : Option Nat),
      (∀ l ∈ ls, p l = .single (f l)) →
      processLines p ls i exp = .ok (exp, ls.map (fun l => PResult.single (f l))) := by
  induction ls with
  | nil => intro i exp _; rfl
  | cons l rest ih =>
    intro i exp h
    have hl : p l = .single (f l) := h l (List.mem_cons_self _ _)
    have hr := ih (i + 1) exp (fun x hx => h x (List.mem_cons_of_mem _ hx))
    simp [processLines, hl, hr]

/-- A scan over lines none of which expands succeeds with `expanded_line`
untouched. -/
theorem processLines_ok_of_none_expanded (p : String → PResult) (ls : List String) :
    ∀ (i : Nat) (exp : Option Nat),
      (∀ l ∈ ls, (p l).isExpanded = false) →
      ∃ ys, processLines p ls i exp = .ok (exp, ys) := by
  induction ls with
  | nil => intro i exp _; exact ⟨[], rfl⟩
  | cons l rest ih =>
    intro i exp h
    cases hl : p l with
    | single y =>
      obtain ⟨ys, hys⟩ := ih (i + 1) exp (fun x hx => h x (List.mem_cons_of_mem _ hx))
      exact ⟨.single y :: ys, by simp [processLines, hl, hys]⟩
    | expanded vs =>
      have := h l (List.mem_cons_self _ _)
      simp [hl, PResult.isExpanded] at this

/-- Once `expanded_line` is set, any further expanding line aborts the scan
with the error of line 72. -/
theorem processLines_error_of_expanded_some (p : String → PResult) (ls : List String) :
    ∀ (i j : Nat),
      (∃ l ∈ ls, (p l).isExpanded = true) →
      processLines p ls i (some j) = .error () := by
  induction ls with
  | nil => intro i j h; simp at h
  | cons l rest ih =>
    intro i j h
    cases hl : p l with
    | expanded vs => simp [processLines, hl]
    | single y =>
      obtain ⟨x, hx, hxe⟩ := h
      rcases List.mem_cons.mp hx with hxl | hxr
      · rw [hxl] at hxe; simp [hl, PResult.isExpanded] at hxe
      · have := ih (i + 1) j ⟨x, hxr, hxe⟩
        simp [processLines, hl, this]

/-- Two expanding lines in the same sub-slide make the scan raise. -/
theorem processLines_error_of_two (p : String → PResult) (ls : List String) :
    ∀ (i : Nat),
      2 ≤ ls.countP (fun l => (p l).isExpanded) →
      processLines p ls i none = .error () := by
  induction ls with
  | nil => intro i h; simp [List.countP_nil] at h
  | cons l rest ih =>
    intro i h
    rw [List.countP_cons] at h
    cases hl : p l with
    | single y =>
      have hfalse : (p l).isExpanded = false := by rw [hl]; rfl
      rw [hfalse] at h
      have hcount : 2 ≤ rest.countP (fun l => (p l).isExpanded) := by
        rw [if_neg (by decide)] at h; omega
      simp [processLines, hl, ih (i + 1) hcount]
    | expanded vs =>
      have htrue : (p l).isExpanded = true := by rw [hl]; rfl
      rw [htrue] at h
      have hcount : 0 < rest.countP (fun l => (p l).isExpanded) := by
        rw [if_pos rfl] at h; omega
      have hmem : ∃ x ∈ rest, (p x).isExpanded = true := by
        simpa using List.countP_pos_iff.mp hcount
      simp [processLines, hl, processLines_error_of_expanded_some p rest (i + 1) i hmem]

/-- The scan never unsets `expanded_line`. -/
theorem processLines_isSome_mono (p : String → PResult) (ls : List String) :
    ∀ (i : Nat) (exp e : Option Nat) (ys : List PResult),
      processLines p ls i exp = .ok (e, ys) → exp.isSome = true → e.isSome = true := by
  induction ls with
  | nil =>
    intro i exp e ys h hs
    simp [processLines] at h
    obtain ⟨rfl, rfl⟩ := h
    exact hs
  | cons l rest ih =>
    intro i exp e ys h hs
    cases hl : p l with
    | single y =>
      cases hrec : processLines p rest (i + 1) exp with
      | error u => simp [processLines, hl, hrec] at h
      | ok pair =>
        obtain ⟨e2, ys2⟩ := pair
        simp [processLines, hl, hrec] at h
        obtain ⟨rfl, rfl⟩ := h
        exact ih (i + 1) exp e2 ys2 hrec hs
    | expanded vs =>
      obtain ⟨j, hj⟩ := Option.isSome_iff_exists.mp hs
      rw [hj] at h
      simp [processLines, hl] at h

/-- A successful scan that saw an expanding line ends with `expanded_line`
set. -/
theorem processLines_isSome_of_expanded (p : String → PResult) (ls : List String) :
    ∀ (i : Nat) (exp e : Option Nat) (ys : List PResult),
      processLines p ls i exp = .ok (e, ys) →
      (∃ l ∈ ls, (p l).isExpanded = true) → e.isSome = true := by
  induction ls with
  | nil =>
    intro i exp e ys _ hex
    simp at hex
  | cons l rest ih =>
    intro i exp e ys h hex
    cases hl : p l with
    | single y =>
      cases hrec : processLines p rest (i + 1) exp with
      | error u => simp [processLines, hl, hrec] at h
      | ok pair =>
        obtain ⟨e2, ys2⟩ := pair
        simp [processLines, hl, hrec] at h
        obtain ⟨rfl, rfl⟩ := h
        obtain ⟨x, hx, hxe⟩ := hex
        rcases List.mem_cons.mp hx with hxl | hxr
        · rw [hxl] at hxe; simp [hl, PResult.isExpanded] at hxe
        · exact ih (i + 1) exp e2 ys2 hrec ⟨x, hxr, hxe⟩
    | expanded vs =>
      cases exp with
      | some j => simp [processLines, hl] at h
      | none =>
        cases hrec : processLines p rest (i + 1) (some i) with
        | error u => simp [processLines, hl, hrec] at h
        | ok pair =>
          obtain ⟨e2, ys2⟩ := pair
          simp [processLines, hl, hrec] at h
          obtain ⟨rfl, rfl⟩ := h
          exact processLines_isSome_mono p rest (i + 1) (some i) e2 ys2 hrec rfl

/-- With at most one expanding line in the sub-slide, the scan (started with
`expanded_line = -1`) succeeds. -/
theorem processLines_ok_of_at_most_one (p : String → PResult) (ls : List String) :
    ∀ (i : Nat),
      ls.countP (fun l => (p l).isExpanded) ≤ 1 →
      ∃ e ys, processLines p ls i none = .ok (e, ys) := by
  induction ls with
  | nil => intro i _; exact ⟨none, [], rfl⟩
  | cons l rest ih =>
    intro i h
    rw [List.countP_cons] at h
    cases hl : p l with
    | single y =>
      have hfalse : (p l).isExpanded = false := by rw [hl]; rfl
      rw [hfalse] at h
      have hcount : rest.countP (fun l => (p l).isExpanded) ≤ 1 := by
        rw [if_neg (by decide)] at h; omega
      obtain ⟨e, ys, hys⟩ := ih (i + 1) hcount
      exact ⟨e, .single y :: ys, by simp [processLines, hl, hys]⟩
    | expanded vs =>
      have htrue : (p l).isExpanded = true := by rw [hl]; rfl
      rw [htrue] at h
      have hcount : rest.countP (fun l => (p l).isExpanded) = 0 := by
        rw [if_pos rfl] at h; omega
      have hnone : ∀ x ∈ rest, (p x).isExpanded = false := by
        intro x hx
        have := List.countP_eq_zero.mp hcount x hx
        simpa using this
      obtain ⟨ys, hys⟩ := processLines_ok_of_none_expanded p rest (i + 1) (some i) hnone
      exact ⟨some i, .expanded vs :: ys, by simp [processLines, hl, hys]⟩

/-- The scan of a sub-slide with exactly one expanding line, at index
`as.length`: it succeeds, records that index, and maps every other line to
its single processed result. -/
theorem processLines_one_expanded (p : String → PResult) (f : String → String)
    (vs : List String) :
    ∀ (as : List String) (x : String) (bs : List String) (i : Nat),
      (∀ l ∈ as, p l = .single (f l)) →
      p x = .expanded vs →
      (∀ l ∈ bs, p l = .single (f l)) →
      processLines p (as ++ x :: bs) i none =
        .ok (some (i + as.length),
          as.map (fun l => PResult.single (f l)) ++
            PResult.expanded vs :: bs.map (fun l => PResult.single (f l))) := by
  intro as
  induction as with
  | nil =>
    intro x bs i _ hx hb
    have hrec := processLines_all_single p f bs (i + 1) (some i) hb
    simp [processLines, hx, hrec]
  | cons a as ih =>
    intro x bs i ha hx hb
    have hla : p a = .single (f a) := ha a (List.mem_cons_self _ _)
    have hrec := ih x bs (i + 1) (fun l hl => ha l (List.mem_cons_of_mem _ hl)) hx hb
    simp [processLines, hla, hrec]
    omega

/-! ### Behaviour of recombination and the sub-slide loop -/

/-- Recombination at the recorded index: the processed lines before and
after the expanded one become the shared halves, and each tuple entry
produces one new sub-slide, in tuple order. -/
theorem buildSubSlides_expanded (A B : List PResult) (vs : List String) :
    buildSubSlides (some A.length) (A ++ PResult.expanded vs :: B) =
      vs.map (fun t => A.map PResult.asLine ++ t :: B.map PResult.asLine) := by
  have htake : (A ++ PResult.expanded vs :: B).take A.length = A := List.take_left A _
  have hget : (A ++ PResult.expanded vs :: B)[A.length]? = some (PResult.expanded vs) := by
    rw [List.getElem?_append_right (le_refl _)]
    simp
  have hdrop : (A ++ PResult.expanded vs :: B).drop (A.length + 1) = B := by
    have hsplit : A ++ PResult.expanded vs :: B = (A ++ [PResult.expanded vs]) ++ B := by
      simp
    have hlen : (A ++ [PResult.expanded vs]).length = A.length + 1 := by simp
    rw [hsplit, ← hlen, List.drop_left]
  simp only [buildSubSlides, htake, hget, hdrop]

/-- An erroring sub-slide makes the whole pass error, wherever it sits in
the list. -/
theorem processSubSlides_error_of_mem (p : String → PResult) (sub : List String)
    (herr : processLines p sub 0 none = .error ()) :
    ∀ subs : List (List String), sub ∈ subs → processSubSlides p subs = .error () := by
  intro subs
  induction subs with
  | nil => intro h; simp at h
  | cons s rest ih =>
    intro hmem
    rcases List.mem_cons.mp hmem with hs | hr
    · subst hs
      simp [processSubSlides, herr]
    · cases h1 : processLines p s 0 none with
      | error u => simp [processSubSlides, h1]
      | ok pair =>
        obtain ⟨e, ys⟩ := pair
        simp [processSubSlides, h1, ih hr]

/-- If every sub-slide holds at most one expanding line, the pass succeeds. -/
theorem processSubSlides_ok_of_at_most_one (p : String → PResult) :
    ∀ subs : List (List String),
      (∀ sub ∈ subs, sub.countP (fun l => (p l).isExpanded) ≤ 1) →
      ∃ out flag, processSubSlides p subs = .ok (out, flag) := by
  intro subs
  induction subs with
  | nil => intro _; exact ⟨[], false, rfl⟩
  | cons s rest ih =>
    intro h
    obtain ⟨e, ys, hys⟩ :=
      processLines_ok_of_at_most_one p s 0 (h s (List.mem_cons_self _ _))
    obtain ⟨out, flag, hout⟩ := ih (fun x hx => h x (List.mem_cons_of_mem _ hx))
    exact ⟨buildSubSlides e ys ++ out, e.isSome || flag,
      by simp [processSubSlides, hys, hout]⟩

/-- A successful pass that saw an expanding line anywhere reports
`processor_expanded_slide = true`. -/
theorem processSubSlides_flag_of_expanded (p : String → PResult) :
    ∀ (subs out : List (List String)) (flag : Bool),
      processSubSlides p subs = .ok (out, flag) →
      (∃ sub ∈ subs, ∃ l ∈ sub, (p l).isExpanded = true) → flag = true := by
  intro subs
  induction subs with
  | nil => intro out flag _ hex; simp at hex
  | cons s rest ih =>
    intro out flag h hex
    cases h1 : processLines p s 0 none with
    | error u => simp [processSubSlides, h1] at h
    | ok pair =>
      obtain ⟨e, ys⟩ := pair
      cases h2 : processSubSlides p rest with
      | error u => simp [processSubSlides, h1, h2] at h
      | ok pr =>
        obtain ⟨ro, rf⟩ := pr
        simp [processSubSlides, h1, h2] at h
        obtain ⟨-, rfl⟩ := h
        obtain ⟨sub, hsub, hl⟩ := hex
        rcases List.mem_cons.mp hsub with hss | hsr
        · subst hss
          have hsome := processLines_isSome_of_expanded p sub 0 none e ys h1 hl
          simp [hsome]
        · have hrf := ih ro rf h2 ⟨sub, hsr, hl⟩
          simp [hrf]

/-- Successful passes compose over concatenation of the sub-slide lists. -/
theorem processSubSlides_append (p : String → PResult) :
    ∀ (xs ys o1 o2 : List (List String)) (f1 f2 : Bool),
      processSubSlides p xs = .ok (o1, f1) →
      processSubSlides p ys = .ok (o2, f2) →
      processSubSlides p (xs ++ ys) = .ok (o1 ++ o2, f1 || f2) := by
  intro xs
  induction xs with
  | nil =>
    intro ys o1 o2 f1 f2 h1 h2
    simp [processSubSlides] at h1
    obtain ⟨rfl, rfl⟩ := h1
    simpa using h2
  | cons s xs ih =>
    intro ys o1 o2 f1 f2 h1 h2
    cases hs : processLines p s 0 none with
    | error u => simp [processSubSlides, hs] at h1
    | ok pair =>
      obtain ⟨e, zs⟩ := pair
      cases hx : processSubSlides p xs with
      | error u => simp [processSubSlides, hs, hx] at h1
      | ok pr =>
        obtain ⟨xo, xf⟩ := pr
        simp [processSubSlides, hs, hx] at h1
        obtain ⟨rfl, rfl⟩ := h1
        have hrec := ih ys xo o2 xf f2 hx h2
        simp [processSubSlides, hs, hrec, List.append_assoc, Bool.or_assoc]

/-- A pass whose processor returns a single line for every input maps every
sub-slide line-for-line and reports no expansion. -/
theorem processSubSlides_all_single (p : String → PResult) (f : String → String)
    (hf : ∀ l, p l = .single (f l)) :
    ∀ subs : List (List String),
      processSubSlides p subs = .ok (subs.map (fun sub => sub.map f), false) := by
  intro subs
  induction subs with
  | nil => rfl
  | cons s rest ih =>
    have hs := processLines_all_single p f s 0 none (fun l _ => hf l)
    have hbuild : buildSubSlides none (s.map (fun l => PResult.single (f l))) =
        [s.map f] := by
      simp [buildSubSlides, List.map_map, PResult.asLine, Function.comp]
    simp [processSubSlides, hs, ih, hbuild]

/-! ### Concrete processors used by the witnesses -/

/-- A concrete processor: expands the line `"X\n"` into three variants and
returns every other line unchanged. -/
def expandX : Processor :=
  { name := "expandX"
    process := fun l => if l = "X\n" then .expanded ["v0\n", "v1\n", "v2\n"] else .single l }

/-- A concrete processor: expands `"X\n"` into a length-1 tuple. -/
def expandXone : Processor :=
  { name := "expandXone"
    process := fun l => if l = "X\n" then .expanded ["v0\n"] else .single l }

/-- A concrete non-expanding processor: appends `"!"` to every line. -/
def bangProc : Processor :=
  { name := "bang", process := fun l => .single (l ++ "!") }

/-! ### The claims -/

/-- **C2.** Within one sub-slide in one `apply` pass, two distinct expanding
lines make `Slide.apply` raise the `SlideMachineError` whose message names
the processor and ends with the join of the slide's original source lines;
with at most one expansion per sub-slide the pass never raises it. -/
theorem slide_apply_multiple_expansion_error (s : Slide) (proc : Processor) :
    ((∃ sub ∈ s.sub_slides,
        2 ≤ sub.countP (fun l => (proc.process l).isExpanded)) →
      s.apply proc =
        (s, some ("Error in " ++ proc.name ++ "." ++ multipleExpansionText ++
          String.join s.slide_lines)))
  ∧ ((∀ sub ∈ s.sub_slides,
        sub.countP (fun l => (proc.process l).isExpanded) ≤ 1) →
      (s.apply proc).snd = none) := by
  constructor
  · rintro ⟨sub, hmem, hcount⟩
    have herr := processLines_error_of_two proc.process sub 0 hcount
    have hsubs := processSubSlides_error_of_mem proc.process sub herr s.sub_slides hmem
    simp [Slide.apply, hsubs, multipleExpansionMsg]
  · intro h
    obtain ⟨out, flag, hok⟩ :=
      processSubSlides_ok_of_at_most_one proc.process s.sub_slides h
    simp [Slide.apply, hok]

theorem slide_apply_multiple_expansion_error_witness :
    ((∃ sub ∈ (Slide.init ["X\n", "X\n"]).sub_slides,
        2 ≤ sub.countP (fun l => (expandX.process l).isExpanded))
      ∧ (Slide.init ["X\n", "X\n"]).apply expandX =
          (Slide.init ["X\n", "X\n"],
           some ("Error in " ++ expandX.name ++ "." ++ multipleExpansionText ++
             String.join (Slide.init ["X\n", "X\n"]).slide_lines)))
  ∧ ((∀ sub ∈ (Slide.init ["X\n", "c\n"]).sub_slides,
        sub.countP (fun l => (expandX.process l).isExpanded) ≤ 1)
      ∧ ((Slide.init ["X\n", "c\n"]).apply expandX).snd = none) :=
  ⟨⟨by decide, (slide_apply_multiple_expansion_error (Slide.init ["X\n", "X\n"]) expandX).1
      (by decide)⟩,
   ⟨by decide, (slide_apply_multiple_expansion_error (Slide.init ["X\n", "c\n"]) expandX).2
      (by decide)⟩⟩

/-- **C6.** A processor that returns a single line for every input preserves
the number of sub-slides, maps each sub-slide line for line in place, and
leaves the override-transition flag unchanged. -/
theorem slide_apply_non_expanding (s : Slide) (proc : Processor) (f : String → String)
    (hf : ∀ l, proc.process l = .single (f l)) :
    s.apply proc =
      ({ s with sub_slides := s.sub_slides.map (fun sub => sub.map f) }, none)
  ∧ (s.apply proc).fst.sub_slides.length = s.sub_slides.length
  ∧ (∀ sub ∈ s.sub_slides, (sub.map f).length = sub.length)
  ∧ (s.apply proc).fst.override_transition = s.override_transition := by
  have hps := processSubSlides_all_single proc.process f hf s.sub_slides
  have happ : s.apply proc =
      ({ s with sub_slides := s.sub_slides.map (fun sub => sub.map f) }, none) := by
    simp [Slide.apply, hps]
  refine ⟨happ, ?_, ?_, ?_⟩
  · rw [happ]; simp
  · intro sub _; simp
  · rw [happ]

theorem slide_apply_non_expanding_witness :
    (∀ l, bangProc.process l = PResult.single (l ++ "!"))
    ∧ ((Slide.init ["a\n", "b\n"]).apply bangProc =
        ({ Slide.init ["a\n", "b\n"] with
            sub_slides :=
              (Slide.init ["a\n", "b\n"]).sub_slides.map
                (fun sub => sub.map (fun l => l ++ "!")) }, none)
      ∧ ((Slide.init ["a\n", "b\n"]).apply bangProc).fst.sub_slides.length =
          (Slide.init ["a\n", "b\n"]).sub_slides.length
      ∧ (∀ sub ∈ (Slide.init ["a\n", "b\n"]).sub_slides,
          (sub.map (fun l => l ++ "!")).length = sub.length)
      ∧ ((Slide.init ["a\n", "b\n"]).apply bangProc).fst.override_transition =
          (Slide.init ["a\n", "b\n"]).override_transition) :=
  ⟨fun _ => rfl,
   slide_apply_non_expanding (Slide.init ["a\n", "b\n"]) bangProc
     (fun l => l ++ "!") (fun _ => rfl)⟩

/-- **C10.** If `apply` raises the multiple-expansion error, the slide is
left exactly as it was before the call: the exception fires before the new
sub-slide list or the flag is written back. -/
theorem slide_apply_error_atomic (s : Slide) (proc : Processor)
    (h : (s.apply proc).snd.isSome = true) :
    (s.apply proc).fst = s := by
  cases hres : processSubSlides proc.process s.sub_slides with
  | error u => simp [Slide.apply, hres]
  | ok pair =>
    obtain ⟨out, flag⟩ := pair
    simp [Slide.apply, hres] at h

theorem slide_apply_error_atomic_witness :
    ((Slide.init ["X\n", "X\n"]).apply expandX).snd.isSome = true
  ∧ ((Slide.init ["X\n", "X\n"]).apply expandX).fst = Slide.init ["X\n", "X\n"] :=
  ⟨by decide, slide_apply_error_atomic (Slide.init ["X\n", "X\n"]) expandX (by decide)⟩

/-- **C9.** The original line sequence captured at construction is never
modified: `apply` (successful or raising) writes back only the sub-slide
list and the flag, leaving `_slide_lines` (and the never-assigned
`_original_slide_lines`) untouched. -/
theorem slide_lines_immutable (L : List String) (s : Slide) (proc : Processor) :
    (Slide.init L).slide_lines = L
  ∧ (s.apply proc).fst.slide_lines = s.slide_lines
  ∧ (s.apply proc).fst.original_slide_lines = s.original_slide_lines := by
  refine ⟨rfl, ?_, ?_⟩ <;>
  · cases hres : processSubSlides proc.process s.sub_slides with
    | error u => simp [Slide.apply, hres]
    | ok pair =>
      obtain ⟨out, flag⟩ := pair
      simp [Slide.apply, hres]

/-- **C4.** The override-transition flag starts `false`, becomes `true`
after any successful `apply` in which some line of some sub-slide returned
a tuple, and once `true` stays `true` across every further `apply`. -/
theorem override_transition_sticky (L : List String) (s : Slide) (proc : Processor) :
    (Slide.init L).override_transition = false
  ∧ ((s.apply proc).snd = none →
      (∃ sub ∈ s.sub_slides, ∃ l ∈ sub, (proc.process l).isExpanded = true) →
      (s.apply proc).fst.override_transition = true)
  ∧ (s.override_transition = true → (s.apply proc).fst.override_transition = true) := by
  refine ⟨rfl, ?_, ?_⟩
  · intro hsnd hex
    cases hres : processSubSlides proc.process s.sub_slides with
    | error u => simp [Slide.apply, hres] at hsnd
    | ok pair =>
      obtain ⟨out, flag⟩ := pair
      have hflag :=
        processSubSlides_flag_of_expanded proc.process s.sub_slides out flag hres hex
      simp [Slide.apply, hres, hflag]
  · intro hov
    cases hres : processSubSlides proc.process s.sub_slides with
    | error u => simp [Slide.apply, hres, hov]
    | ok pair =>
      obtain ⟨out, flag⟩ := pair
      cases flag with
      | true => simp [Slide.apply, hres]
      | false => simp [Slide.apply, hres, hov]

theorem override_transition_sticky_witness :
    (Slide.init ["a\n"]).override_transition = false
  ∧ (((Slide.init ["X\n", "c\n"]).apply expandX).snd = none
      ∧ (∃ sub ∈ (Slide.init ["X\n", "c\n"]).sub_slides,
          ∃ l ∈ sub, (expandX.process l).isExpanded = true)
      ∧ ((Slide.init ["X\n", "c\n"]).apply expandX).fst.override_transition = true)
  ∧ (({ Slide.init ["a\n"] with override_transition := true }).override_transition = true
      ∧ (({ Slide.init ["a\n"] with override_transition := true }).apply
          bangProc).fst.override_transition = true) := by
  refine ⟨(override_transition_sticky ["a\n"] (Slide.init ["a\n"]) bangProc).1,
    ⟨by decide, by decide, ?_⟩, ⟨rfl, ?_⟩⟩
  · exact (override_transition_sticky ["a\n"] (Slide.init ["X\n", "c\n"]) expandX).2.1
      (by decide) (by decide)
  · exact (override_transition_sticky ["a\n"]
      ({ Slide.init ["a\n"] with override_transition := true }) bangProc).2.2 rfl

/-- **C1.** Expansion law: when the processor expands exactly one line of a
sub-slide — the line at index `as.length` — into the tuple `vs` and maps
every other line of that sub-slide to a single processed line, `apply`
replaces that sub-slide with exactly `vs.length` new sub-slides, one per
variant in tuple order, each of the old sub-slide's length and identical to
the processed lines except at the expanded position, which carries that
sub-slide's variant. -/
theorem slide_apply_expansion_law (s : Slide) (proc : Processor) (f : String → String)
    (pre post preOut postOut : List (List String)) (preFlag postFlag : Bool)
    (as bs vs : List String) (x : String)
    (hsub : s.sub_slides = pre ++ (as ++ x :: bs) :: post)
    (ha : ∀ l ∈ as, proc.process l = .single (f l))
    (hx : proc.process x = .expanded vs)
    (hb : ∀ l ∈ bs, proc.process l = .single (f l))
    (hpre : processSubSlides proc.process pre = .ok (preOut, preFlag))
    (hpost : processSubSlides proc.process post = .ok (postOut, postFlag)) :
    s.apply proc =
      ({ s with
          sub_slides := preOut ++ vs.map (fun v => as.map f ++ v :: bs.map f) ++ postOut
          override_transition := true }, none)
  ∧ (vs.map (fun v => as.map f ++ v :: bs.map f)).length = vs.length
  ∧ ∀ nsub ∈ vs.map (fun v => as.map f ++ v :: bs.map f),
      nsub.length = (as ++ x :: bs).length := by
  have hline := processLines_one_expanded proc.process f vs as x bs 0 ha hx hb
  rw [Nat.zero_add] at hline
  have hbuild :
      buildSubSlides (some as.length)
        (as.map (fun l => PResult.single (f l)) ++
          PResult.expanded vs :: bs.map (fun l => PResult.single (f l))) =
        vs.map (fun v => as.map f ++ v :: bs.map f) := by
    have hb2 := buildSubSlides_expanded (as.map (fun l => PResult.single (f l)))
      (bs.map (fun l => PResult.single (f l))) vs
    rw [List.length_map] at hb2
    rw [hb2]
    simp [List.map_map, PResult.asLine, Function.comp_def]
  have hmid : processSubSlides proc.process ((as ++ x :: bs) :: post) =
      .ok (vs.map (fun v => as.map f ++ v :: bs.map f) ++ postOut, true || postFlag) := by
    simp [processSubSlides, hline, hpost, hbuild]
  have hall : processSubSlides proc.process s.sub_slides =
      .ok (preOut ++ (vs.map (fun v => as.map f ++ v :: bs.map f) ++ postOut),
        preFlag || (true || postFlag)) := by
    rw [hsub]
    exact processSubSlides_append proc.process pre _ preOut _ preFlag _ hpre hmid
  refine ⟨?_, by simp, ?_⟩
  · simp [Slide.apply, hall, List.append_assoc]
  · intro nsub hmem
    simp at hmem
    obtain ⟨v, -, rfl⟩ := hmem
    simp

theorem slide_apply_expansion_law_witness :
    ((Slide.init ["t\n", "X\n", "c\n"]).sub_slides =
        [] ++ (["t\n"] ++ "X\n" :: ["c\n"]) :: [])
  ∧ (∀ l ∈ (["t\n"] : List String), expandX.process l = PResult.single ((fun l => l) l))
  ∧ expandX.process "X\n" = PResult.expanded ["v0\n", "v1\n", "v2\n"]
  ∧ (∀ l ∈ (["c\n"] : List String), expandX.process l = PResult.single ((fun l => l) l))
  ∧ processSubSlides expandX.process [] = .ok ([], false)
  ∧ ((Slide.init ["t\n", "X\n", "c\n"]).apply expandX =
      ({ Slide.init ["t\n", "X\n", "c\n"] with
          sub_slides :=
            [] ++ (["v0\n", "v1\n", "v2\n"] : List String).map
              (fun v => ["t\n"].map (fun l => l) ++ v :: ["c\n"].map (fun l => l)) ++ []
          override_transition := true }, none)
    ∧ ((["v0\n", "v1\n", "v2\n"] : List String).map
        (fun v => ["t\n"].map (fun l => l) ++ v :: ["c\n"].map (fun l => l))).length =
          (["v0\n", "v1\n", "v2\n"] : List String).length
    ∧ ∀ nsub ∈ (["v0\n", "v1\n", "v2\n"] : List String).map
        (fun v => ["t\n"].map (fun l => l) ++ v :: ["c\n"].map (fun l => l)),
        nsub.length = ((["t\n"] ++ "X\n" :: ["c\n"]) : List String).length) :=
  ⟨rfl, by decide, by decide, by decide, rfl,
   slide_apply_expansion_law (Slide.init ["t\n", "X\n", "c\n"]) expandX (fun l => l)
     [] [] [] [] false false ["t\n"] ["c\n"] ["v0\n", "v1\n", "v2\n"] "X\n"
     rfl (by decide) (by decide) (by decide) rfl rfl⟩

/-- **C5.** A tuple of length 1 still counts as an expansion: it takes the
split/rejoin path and sets the sticky flag, yet yields exactly one new
sub-slide, so the sub-slide count is unchanged; a single (non-tuple) result
never moves `expanded_line`. -/
theorem single_element_expansion_counts (s : Slide) (proc : Processor) (f : String → String)
    (as bs : List String) (x v : String)
    (hsub : s.sub_slides = [as ++ x :: bs])
    (ha : ∀ l ∈ as, proc.process l = .single (f l))
    (hx : proc.process x = .expanded [v])
    (hb : ∀ l ∈ bs, proc.process l = .single (f l)) :
    s.apply proc =
      ({ s with
          sub_slides := [as.map f ++ v :: bs.map f]
          override_transition := true }, none)
  ∧ (s.apply proc).fst.sub_slides.length = s.sub_slides.length
  ∧ ∀ ls i exp, (∀ l ∈ ls, (proc.process l).isExpanded = false) →
      ∃ ys, processLines proc.process ls i exp = .ok (exp, ys) := by
  have hline := processLines_one_expanded proc.process f [v] as x bs 0 ha hx hb
  rw [Nat.zero_add] at hline
  have hbuild :
      buildSubSlides (some as.length)
        (as.map (fun l => PResult.single (f l)) ++
          PResult.expanded [v] :: bs.map (fun l => PResult.single (f l))) =
        [as.map f ++ v :: bs.map f] := by
    have hb2 := buildSubSlides_expanded (as.map (fun l => PResult.single (f l)))
      (bs.map (fun l => PResult.single (f l))) [v]
    rw [List.length_map] at hb2
    rw [hb2]
    simp [List.map_map, PResult.asLine, Function.comp_def]
  have hall : processSubSlides proc.process s.sub_slides =
      .ok ([as.map f ++ v :: bs.map f], true) := by
    rw [hsub]
    simp [processSubSlides, hline, hbuild]
  have happ : s.apply proc =
      ({ s with
          sub_slides := [as.map f ++ v :: bs.map f]
          override_transition := true }, none) := by
    simp [Slide.apply, hall]
  refine ⟨happ, ?_, ?_⟩
  · rw [happ, hsub]; simp
  · intro ls i exp h
    exact processLines_ok_of_none_expanded proc.process ls i exp h

theorem single_element_expansion_counts_witness :
    ((Slide.init ["X\n", "c\n"]).sub_slides = [[] ++ "X\n" :: ["c\n"]])
  ∧ (∀ l ∈ ([] : List String), expandXone.process l = PResult.single ((fun l => l) l))
  ∧ expandXone.process "X\n" = PResult.expanded ["v0\n"]
  ∧ (∀ l ∈ (["c\n"] : List String), expandXone.process l = PResult.single ((fun l => l) l))
  ∧ ((Slide.init ["X\n", "c\n"]).apply expandXone =
      ({ Slide.init ["X\n", "c\n"] with
          sub_slides := [([] : List String).map (fun l => l) ++ "v0\n" :: ["c\n"].map (fun l => l)]
          override_transition := true }, none)
    ∧ ((Slide.init ["X\n", "c\n"]).apply expandXone).fst.sub_slides.length =
        (Slide.init ["X\n", "c\n"]).sub_slides.length
    ∧ ∀ ls i exp, (∀ l ∈ ls, (expandXone.process l).isExpanded = false) →
        ∃ ys, processLines expandXone.process ls i exp = .ok (exp, ys)) :=
  ⟨rfl, by decide, by decide, by decide,
   single_element_expansion_counts (Slide.init ["X\n", "c\n"]) expandXone (fun l => l)
     [] ["c\n"] "X\n" "v0\n" rfl (by decide) (by decide) (by decide)⟩

/-! ### Splitting the document into slides -/

/-- The loop of `_read_md_file` always yields one more slide than the number
of delimiter lines (the final `append` after the loop counts for one). -/
theorem readSlides_length (b : String → Bool) (lines : List String) :
    ∀ acc, (readSlides b lines acc).length = lines.countP b + 1 := by
  induction lines with
  | nil => intro acc; simp [readSlides]
  | cons l rest ih =>
    intro acc
    rw [List.countP_cons]
    by_cases hb : b l
    · simp [readSlides, hb, ih]
    · simp [readSlides, hb, ih]

/-- Every non-delimiter line lands in exactly one slide, in order; delimiter
lines are discarded. -/
theorem readSlides_flatten (b : String → Bool) (lines : List String) :
    ∀ acc, ((readSlides b lines acc).map Slide.slide_lines).flatten =
      acc ++ lines.filter (fun l => !b l) := by
  induction lines with
  | nil => intro acc; simp [readSlides, Slide.init]
  | cons l rest ih =>
    intro acc
    by_cases hb : b l
    · simp [readSlides, hb, List.filter_cons, ih, Slide.init]
    · simp [readSlides, hb, List.filter_cons, ih, Slide.init]

/-- With no delimiter line, the whole document becomes one slide. -/
theorem readSlides_no_break (b : String → Bool) (lines : List String)
    (h : lines.countP b = 0) :
    ∀ acc, readSlides b lines acc = [Slide.init (acc ++ lines)] := by
  induction lines with
  | nil => intro acc; simp [readSlides]
  | cons l rest ih =>
    intro acc
    rw [List.countP_cons] at h
    have hb : b l = false := by
      by_contra hc
      rw [eq_true_of_ne_false hc, if_pos rfl] at h
      omega
    have hr : rest.countP b = 0 := by
      rw [hb] at h
      rw [if_neg (by decide)] at h
      omega
    simp [readSlides, hb, ih hr]

/-- A document ending in a delimiter line produces a trailing empty slide. -/
theorem readSlides_trailing_break (b : String → Bool) (first : List String)
    (d : String) (hd : b d = true) :
    ∀ acc, ∃ preSlides, readSlides b (first ++ [d]) acc =
      preSlides ++ [Slide.init []] := by
  induction first with
  | nil =>
    intro acc
    exact ⟨[Slide.init acc], by simp [readSlides, hd]⟩
  | cons l rest ih =>
    intro acc
    by_cases hb : b l
    · obtain ⟨pre, hpre⟩ := ih []
      exact ⟨Slide.init acc :: pre, by simp [readSlides, hb, hpre]⟩
    · obtain ⟨pre, hpre⟩ := ih (acc ++ [l])
      exact ⟨pre, by simp [readSlides, hb, hpre]⟩

/-- **C3.** Splitting a document produces (number of delimiter lines) + 1
slides; delimiter lines are discarded and every other line lands in exactly
one slide in original order; with no delimiter the whole document is one
slide; a leading or trailing delimiter produces an empty slide at that end,
and an empty slide still renders as a `<section>` element rather than
erroring. -/
theorem read_md_split_law (b : String → Bool) (lines : List String) :
    (readSlides b lines []).length = lines.countP b + 1
  ∧ ((readSlides b lines []).map Slide.slide_lines).flatten =
      lines.filter (fun l => !b l)
  ∧ (lines.countP b = 0 → readSlides b lines [] = [Slide.init lines])
  ∧ (∀ d rest, b d = true →
      (readSlides b (d :: rest) []).head? = some (Slide.init []))
  ∧ (∀ first d, b d = true →
      (readSlides b (first ++ [d]) []).getLast? = some (Slide.init []))
  ∧ (∀ md, ∃ body, Slide.html md (Slide.init []) =
      "<section>\n" ++ body ++ "\n</section>\n\n") := by
  refine ⟨readSlides_length b lines [], by simpa using readSlides_flatten b lines [],
    ?_, ?_, ?_, ?_⟩
  · intro h
    simpa using readSlides_no_break b lines h []
  · intro d rest hd
    simp [readSlides, hd]
  · intro first d hd
    obtain ⟨pre, hpre⟩ := readSlides_trailing_break b first d hd []
    rw [hpre, List.getLast?_concat]
  · intro md
    refine ⟨renderMiddle md [], ?_⟩
    apply String.ext
    simp [Slide.html, Slide.init, sectionStart, String.join_eq]

theorem read_md_split_law_witness :
    ((fun l => decide (l = ">>>\n")) ">>>\n" = true
      ∧ (readSlides (fun l => decide (l = ">>>\n")) (">>>\n" :: ["B\n"]) []).head? =
          some (Slide.init []))
  ∧ ((["A\n"] : List String).countP (fun l => decide (l = ">>>\n")) = 0
      ∧ readSlides (fun l => decide (l = ">>>\n")) ["A\n"] [] = [Slide.init ["A\n"]])
  ∧ ((fun l => decide (l = ">>>\n")) ">>>\n" = true
      ∧ (readSlides (fun l => decide (l = ">>>\n")) (["A\n"] ++ [">>>\n"]) []).getLast? =
          some (Slide.init [])) := by
  refine ⟨⟨by decide, ?_⟩, ⟨by decide, ?_⟩, ⟨by decide, ?_⟩⟩
  · exact (read_md_split_law (fun l => decide (l = ">>>\n")) [">>>\n", "B\n"]).2.2.2.1
      ">>>\n" ["B\n"] (by decide)
  · exact (read_md_split_law (fun l => decide (l = ">>>\n")) ["A\n"]).2.2.1 (by decide)
  · exact (read_md_split_law (fun l => decide (l = ">>>\n")) (["A\n"] ++ [">>>\n"])).2.2.2.2.1
      ["A\n"] ">>>\n" (by decide)

/-! ### The render format: `html` matches the spec's description -/

/-- `rstrip` swallows a trailing newline. -/
theorem pyRstrip_append_newline (x : String) : pyRstrip (x ++ "\n") = pyRstrip x := by
  unfold pyRstrip
  apply congrArg
  have hdata : (x ++ "\n").data = x.data ++ ['\n'] := by simp
  have hsp : pyIsSpace '\n' = true := by decide
  rw [hdata]
  simp [List.dropWhile_cons, hsp]

/-- Joining blocks that each end with `sep` is the same as interposing `sep`
between the bare blocks and appending one final `sep`. -/
theorem join_map_append_sep (sep : String) :
    ∀ qs : List String, qs ≠ [] →
      String.join (qs.map (fun q => q ++ sep)) = joinSep sep qs ++ sep := by
  intro qs
  induction qs with
  | nil => intro h; exact absurd rfl h
  | cons q rest ih =>
    intro _
    cases rest with
    | nil =>
      apply String.ext
      simp [String.join_eq, joinSep]
    | cons q2 rest2 =>
      have hne : q2 :: rest2 ≠ [] := by simp
      have hjoin : String.join ((q :: q2 :: rest2).map (fun q => q ++ sep)) =
          (q ++ sep) ++ String.join ((q2 :: rest2).map (fun q => q ++ sep)) := by
        apply String.ext
        simp [String.join_eq]
      rw [hjoin, ih hne, joinSep]
      simp [String.append_assoc]

/-- The newline-separated split of the rendered text is never empty. -/
theorem pySplitNl_ne_nil (t : String) : pySplitNl t ≠ [] := by
  unfold pySplitNl
  intro hc
  simp only [List.map_eq_nil_iff] at hc
  exact List.splitOnP_ne_nil _ _ (by unfold List.splitOn at hc; exact hc)

/-- The indent-and-strip of lines 128-130, re-expressed the way the spec
words it: two spaces in front of every rendered line, newlines between
lines, trailing whitespace trimmed. -/
theorem renderMiddle_eq_spec (md : String → String) (sub : List String) :
    renderMiddle md sub =
      pyRstrip (joinSep "\n"
        ((pySplitNl (md (String.join sub))).map (fun m => "  " ++ m))) := by
  unfold renderMiddle
  have hfun : (fun m : String => "  " ++ m ++ "\n") =
      ((fun q => q ++ "\n") ∘ (fun m : String => "  " ++ m)) := by
    funext m
    simp [Function.comp, String.append_assoc]
  have hne : (pySplitNl (md (String.join sub))).map (fun m => "  " ++ m) ≠ [] := by
    intro hc
    simp only [List.map_eq_nil_iff] at hc
    exact pySplitNl_ne_nil _ hc
  rw [hfun, ← List.map_map, join_map_append_sep "\n" _ hne, pyRstrip_append_newline]

/-- The opening tag of lines 121-124 is the spec's opener plus a newline. -/
theorem sectionStart_eq (flag : Bool) :
    sectionStart flag =
      (if flag then "<section data-transition=\"none\">" else "<section>") ++ "\n" := by
  cases flag <;> rfl

/-- One sub-slide's chunk of `html` output is the spec's wrapped block
followed by the blank-line separator. -/
theorem codeBlock_eq_specBlock (md : String → String) (flag : Bool) (sub : List String) :
    sectionStart flag ++ renderMiddle md sub ++ "\n</section>\n\n" =
      specSectionBlock md flag sub ++ "\n\n" := by
  rw [sectionStart_eq, renderMiddle_eq_spec]
  unfold specSectionBlock
  have hsec : ("\n</section>" : String) ++ "\n\n" = "\n</section>\n\n" := rfl
  rw [← hsec]
  simp [String.append_assoc]

/-- **C7.** The `html` property renders each sub-slide in order through the
markdown renderer, prefixes every output line with exactly two spaces, trims
trailing whitespace from the block, wraps it in a `<section>` element whose
opening tag carries `data-transition="none"` exactly when the slide's
override flag is set, and emits the wrapped blocks in order with a blank
line after each (hence between consecutive blocks). -/
theorem html_matches_spec_format (md : String → String) (s : Slide) :
    Slide.html md s = htmlSpecRender md s := by
  unfold Slide.html htmlSpecRender
  cases hss : s.sub_slides with
  | nil => rfl
  | cons s0 rest =>
    have hmap : (s0 :: rest).map (fun sub =>
        sectionStart s.override_transition ++ renderMiddle md sub ++ "\n</section>\n\n") =
        ((s0 :: rest).map (specSectionBlock md s.override_transition)).map
          (fun q => q ++ "\n\n") := by
      rw [List.map_map]
      exact List.map_congr_left
        (fun sub _ => codeBlock_eq_specBlock md s.override_transition sub)
    have hne : (s0 :: rest).map (specSectionBlock md s.override_transition) ≠ [] := by
      simp
    rw [hmap, join_map_append_sep "\n\n" _ hne]
    simp

/-- **C8 (code bug).** The `markdown` property reads
`self._original_slide_lines`, but `__init__` stores the slide's lines in
`self._slide_lines` and no method of the class ever assigns
`_original_slide_lines`: every access raises `AttributeError` instead of
returning the joined original source lines, both on a fresh slide and after
any `apply`. -/
theorem markdown_attribute_error (L : List String) (proc : Processor) :
    (Slide.init L).markdown = .error "AttributeError: _original_slide_lines"
  ∧ ((Slide.init L).apply proc).fst.markdown =
      .error "AttributeError: _original_slide_lines" := by
  constructor
  · rfl
  · cases hres : processSubSlides proc.process [L] with
    | error u => simp [Slide.apply, Slide.init, hres, Slide.markdown]
    | ok pair =>
      obtain ⟨out, flag⟩ := pair
      simp [Slide.apply, Slide.init, hres, Slide.markdown]
